import Mathlib

/-!
A verification development for the crictty cricbuzz client
(`internal/cricbuzz/cricbuzz.go`) and the surrounding app layer
(`internal/app/app.go`).

Strings are modelled as Lean `String` (a wrapper around `List Char`); the
Go string-manipulation primitives used by the code (`strings.TrimSpace`,
`strings.ToLower`, `strings.Split`, `strings.Contains`,
`strings.ReplaceAll`, `strconv.ParseUint`, and the three concrete
`regexp.ReplaceAllString` calls of `cleanHTML`) are embedded as executable
functions on `List Char` below.  Recursions that consume a variable number
of characters per step carry an explicit fuel argument (always called with
fuel = length of the list, which is an upper bound on the number of steps)
so that every definition is structurally recursive and kernel-evaluable.

Time (`time.Time`, `time.Sleep`) is modelled as a discrete clock of
natural numbers; HTTP fetches and JSON decoding are modelled as `Except`
valued parameters, and the goquery document structure as explicit lists of
anchors / rows of cells, where a cell records both its plain text
(`goquery .Text()`) and its inner markup (`goquery .Html()`).
-/

/-- Character membership of the Go `unicode.IsSpace` predicate, used by
`strings.TrimSpace`: the Latin-1 white space characters plus the
White_Space code points above Latin-1. -/
def goIsSpace (c : Char) : Bool :=
  c == ' ' || c == '\t' || c == '\n' || (c == Char.ofNat 11) || (c == Char.ofNat 12) ||
  c == '\r' || (c == Char.ofNat 133) || (c == Char.ofNat 160) ||
  (c == Char.ofNat 5760) || (Char.ofNat 8192 ≤ c && c ≤ Char.ofNat 8202) ||
  (c == Char.ofNat 8232) || (c == Char.ofNat 8233) || (c == Char.ofNat 8239) ||
  (c == Char.ofNat 8287) || (c == Char.ofNat 12288)

/-- Character class `\s` of Go's RE2 regexp syntax: `[\t\n\f\r ]`. -/
def reSpace (c : Char) : Bool :=
  c == '\t' || c == '\n' || (c == Char.ofNat 12) || c == '\r' || c == ' '

/-- `strings.TrimSpace` from the left: drop leading white space. -/
def trimLeftL (l : List Char) : List Char := l.dropWhile goIsSpace

/-- `strings.TrimSpace` from the right: drop trailing white space. -/
def trimRightL (l : List Char) : List Char := (l.reverse.dropWhile goIsSpace).reverse

/-- `strings.TrimSpace`. -/
def trimList (l : List Char) : List Char := trimRightL (trimLeftL l)

/-- `strings.TrimSpace` on `String`. -/
def goTrim (s : String) : String := ⟨trimList s.data⟩

/-- The ASCII fragment of Go's `strings.ToLower` character mapping.  (Go
applies the Unicode simple case mapping, which agrees with this on ASCII;
every label the code compares case-insensitively is ASCII.) -/
def goToLowerChar (c : Char) : Char :=
  if 'A' ≤ c && c ≤ 'Z' then Char.ofNat (c.toNat + 32) else c

/-- `strings.ToLower`. -/
def lowerStr (s : String) : String := ⟨s.data.map goToLowerChar⟩

/-- `strings.Split` with a one-character separator (the only form the code
uses: `"-"`, `"/"`, and the overs-pattern check on `"."`). -/
def splitOnCharL (sep : Char) : List Char → List (List Char)
  | [] => [[]]
  | c :: rest =>
    match splitOnCharL sep rest with
    | [] => [[]]
    | h :: t => if c == sep then [] :: h :: t else (c :: h) :: t

/-- `strings.Split` on `String` with a one-character separator. -/
def goSplit (s : String) (sep : Char) : List String :=
  (splitOnCharL sep s.data).map (fun l => ⟨l⟩)

/-- Substring search underlying `strings.Contains`. -/
def containsSubL (pat : List Char) : List Char → Bool
  | [] => pat.isEmpty
  | c :: rest => pat.isPrefixOf (c :: rest) || containsSubL pat rest

/-- `strings.Contains s sub`. -/
def goContains (s sub : String) : Bool := containsSubL sub.data s.data

/-- Does the character occur in the list?  (Helper for the tag-freeness
invariant of the sanitizer.) -/
def hasChar (x : Char) : List Char → Bool
  | [] => false
  | c :: rest => c == x || hasChar x rest

/-- The suffix strictly after the first occurrence of a character, if any.
This is how each of the `cleanHTML` regexes locates the `>` (or `"`)
closing a match: the classes `[^>]*` and `[^"]*` cannot skip over the
terminating character, so a match always ends at its first occurrence. -/
def findAfter (x : Char) : List Char → Option (List Char)
  | [] => none
  | c :: rest => if c == x then some rest else findAfter x rest

/-- Numeric value of a list of ASCII digits. -/
def digitsToNat (l : List Char) : Nat :=
  l.foldl (fun acc c => acc * 10 + (c.toNat - 48)) 0

/-- `strconv.ParseUint(s, 10, 32)`: nonempty all-digit strings whose value
fits in 32 bits; everything else is an error (`none`). -/
def parseUint32 (s : String) : Option Nat :=
  if !s.data.isEmpty && s.data.all Char.isDigit && digitsToNat s.data < 4294967296 then
    some (digitsToNat s.data)
  else none

/-! ### The sanitizer `cleanHTML`

The Go function applies, in order:
1. `regexp.ReplaceAllString` of `<span[^>]*class="[^"]*"[^>]*>` with `""`;
2. `strings.ReplaceAll` of `</span>` with `""`;
3. `regexp.ReplaceAllString` of `<a[^>]*>` with `""`;
4. `strings.ReplaceAll` of `</a>` with `""`;
5. `strings.ReplaceAll` of `<strong>` and `</strong>` with `""`;
6. `regexp.ReplaceAllString` of `<[^>]*>` with `""`;
7. `strings.TrimSpace`;
8. `regexp.ReplaceAllString` of `\s+` with `" "`.
Each replacement below scans left to right and consumes the leftmost
match, exactly as Go's replace-all does. -/

/-- One `strings.ReplaceAll pat ""` step (fuelled; each step consumes at
least one character, so fuel = input length suffices).  The fuel-exhausted
arm is never reached at that fuel. -/
def removeAllSubF : Nat → List Char → List Char → List Char
  | _, _, [] => []
  | 0, _, l => l
  | fuel+1, pat, c :: rest =>
    if pat.isPrefixOf (c :: rest) then
      removeAllSubF fuel pat (List.drop pat.length (c :: rest))
    else c :: removeAllSubF fuel pat rest

/-- `strings.ReplaceAll l pat ""` (all pattern literals of `cleanHTML` are
nonempty). -/
def removeAllSub (pat l : List Char) : List Char := removeAllSubF l.length pat l

/-- Replace-all of `<[^>]*>` with `""` (fuelled): at each `<` that is
followed by a later `>`, drop through that first `>`; a `<` with no
following `>` matches nothing and is kept. -/
def stripTagsF : Nat → List Char → List Char
  | _, [] => []
  | 0, l => l
  | fuel+1, c :: rest =>
    if c == '<' then
      match findAfter '>' rest with
      | some rest2 => stripTagsF fuel rest2
      | none => c :: stripTagsF fuel rest
    else c :: stripTagsF fuel rest

/-- Replace-all of `<[^>]*>` with `""`. -/
def stripTags (l : List Char) : List Char := stripTagsF l.length l

/-- Replace-all of `<a[^>]*>` with `""` (fuelled): a match starts at a
literal `<a` and extends through the first later `>`. -/
def replATagF : Nat → List Char → List Char
  | _, [] => []
  | 0, l => l
  | fuel+1, c :: rest =>
    if ['<', 'a'].isPrefixOf (c :: rest) then
      match findAfter '>' (rest.drop 1) with
      | some rest2 => replATagF fuel rest2
      | none => c :: replATagF fuel rest
    else c :: replATagF fuel rest

/-- Replace-all of `<a[^>]*>` with `""`. -/
def replATag (l : List Char) : List Char := replATagF l.length l

/-- The literal `class="` inside the span-open regex. -/
def classQuote : List Char := ['c', 'l', 'a', 's', 's', '=', '"']

/-- Attempt to match `[^>]*class="[^"]*"[^>]*>` against `u` with the first
star consuming exactly `a` characters: those `a` characters must avoid
`>`, then the literal `class="` must follow, then (because `[^"]*` cannot
skip a quote) the quoted part ends at the first `"`, and (because `[^>]*`
cannot skip a `>`) the match ends at the first `>` after it.  Returns the
suffix after the match. -/
def tryA (u : List Char) (a : Nat) : Option (List Char) :=
  if (u.take a).all (fun c => !(c == '>')) && classQuote.isPrefixOf (u.drop a) then
    match findAfter '"' (u.drop (a + 7)) with
    | some w => findAfter '>' w
    | none => none
  else none

/-- Backtracking order of the greedy first star: try the longest extent
first, shrinking until a full match succeeds (Go's regexp is
leftmost-first, i.e. Perl-like). -/
def tryFrom (u : List Char) : Nat → Option (List Char)
  | 0 => tryA u 0
  | a+1 =>
    match tryA u (a+1) with
    | some v => some v
    | none => tryFrom u a

/-- Match `[^>]*class="[^"]*"[^>]*>` at the start of `u`, returning the
suffix after the leftmost-first match if one exists.  The first star can
extend at most to the first `>` of `u`. -/
def spanMatchEnd (u : List Char) : Option (List Char) :=
  tryFrom u (u.takeWhile (fun c => !(c == '>'))).length

/-- Replace-all of `<span[^>]*class="[^"]*"[^>]*>` with `""` (fuelled): a
match starts at a literal `<span`. -/
def spanLit : List Char := ['<', 's', 'p', 'a', 'n']

/-- Replace-all of `<span[^>]*class="[^"]*"[^>]*>` with `""` (fuelled). -/
def replSpanOpenF : Nat → List Char → List Char
  | _, [] => []
  | 0, l => l
  | fuel+1, c :: rest =>
    if spanLit.isPrefixOf (c :: rest) then
      match spanMatchEnd ((c :: rest).drop 5) with
      | some rest2 => replSpanOpenF fuel rest2
      | none => c :: replSpanOpenF fuel rest
    else c :: replSpanOpenF fuel rest

/-- Replace-all of `<span[^>]*class="[^"]*"[^>]*>` with `""`. -/
def replSpanOpen (l : List Char) : List Char := replSpanOpenF l.length l

/-- Replace-all of `\s+` with a single space: a scanner that emits one
`' '` at the start of each maximal run of `\s` characters (`inRun` records
whether the previous character was part of such a run). -/
def csAux : Bool → List Char → List Char
  | _, [] => []
  | inRun, c :: rest =>
    if reSpace c then
      if inRun then csAux true rest else ' ' :: csAux true rest
    else c :: csAux false rest

/-- Replace-all of `\s+` with `" "`. -/
def collapseSpaces (l : List Char) : List Char := csAux false l

/-- The ContentSanitizer `cleanHTML`, stage by stage in the code's
order. -/
def cleanList (l : List Char) : List Char :=
  let s1 := replSpanOpen l
  let s2 := removeAllSub ['<', '/', 's', 'p', 'a', 'n', '>'] s1
  let s3 := replATag s2
  let s4 := removeAllSub ['<', '/', 'a', '>'] s3
  let s5 := removeAllSub ['<', 's', 't', 'r', 'o', 'n', 'g', '>'] s4
  let s6 := removeAllSub ['<', '/', 's', 't', 'r', 'o', 'n', 'g', '>'] s5
  let s7 := stripTags s6
  let s8 := trimList s7
  collapseSpaces s8

/-- `cleanHTML`: empty input short-circuits to empty output. -/
def cleanHTML (s : String) : String :=
  if s == "" then "" else ⟨cleanList s.data⟩

/-! ### Data model

The records of `internal/models` (the package itself is not under `src/`;
the field sets are exactly those the code under `src/` reads and writes).
Go zero values of string fields are `""`. -/

/-- One `<div>` cell of a scorecard row, recording what goquery's
`.Text()` (tag-stripped plain text) and `.Html()` (inner markup) return
for it. -/
structure Cell where
  text : String
  html : String
deriving DecidableEq, Inhabited

/-- `models.BatsmanInfo`. -/
structure BatsmanInfo where
  Name : String := ""
  Status : String := ""
  Runs : String := ""
  Balls : String := ""
  Fours : String := ""
  Sixes : String := ""
  StrikeRate : String := ""
deriving DecidableEq, Inhabited

/-- `models.BowlerInfo`. -/
structure BowlerInfo where
  Name : String := ""
  Overs : String := ""
  Maidens : String := ""
  Runs : String := ""
  Wickets : String := ""
  NoBalls : String := ""
  Wides : String := ""
  Economy : String := ""
deriving DecidableEq, Inhabited

/-- `models.MatchInningsInfo`. -/
structure MatchInningsInfo where
  BatsmanDetails : List BatsmanInfo := []
  BowlerDetails : List BowlerInfo := []
deriving DecidableEq, Inhabited

/-- Modelled from the spec: the decoded match-summary JSON document
(`models.CricbuzzJSON` is not under `src/`).  The claims only ever move a
decoded value around whole, so its nested header and mini-score content is
carried as one opaque payload. -/
structure CricbuzzJSON where
  raw : String := ""
deriving DecidableEq, Inhabited

/-- `models.MatchInfo`.  `LastUpdated` (a `time.Time` in Go) is a natural
number on the discrete clock. -/
structure MatchInfo where
  CricbuzzMatchID : Nat := 0
  CricbuzzMatchAPILink : String := ""
  MatchShortName : String := ""
  CricbuzzInfo : CricbuzzJSON := {}
  Scorecard : List MatchInningsInfo := []
  LastUpdated : Nat := 0
deriving DecidableEq, Inhabited

/-! ### ScorecardExtractor: `isBattingRow` and `parseInningsInfo` -/

/-- The dismissal-phrase set of `isBattingRow`. -/
def battingStatuses : List String :=
  ["not out", "c ", "b ", "lbw", "run out", "st ", "hit wicket",
   "obstructing", "handled", "timed out", "*"]

/-- The summary/header label set of `isBattingRow`. -/
def skipRows : List String :=
  ["extras", "total", "fall of wickets", "bowler", "overs", "maidens",
   "runs", "wickets", "economy", "nb", "wd"]

/-- The overs pattern of `isBattingRow`: Go regexp `^\d+\.\d+$`, i.e. the
string splits on `.` into exactly two nonempty all-digit parts. -/
def matchesOversPattern (s : String) : Bool :=
  match splitOnCharL '.' s.data with
  | [a, b] => !a.isEmpty && !b.isEmpty && a.all Char.isDigit && b.all Char.isDigit
  | _ => false

/-- `isBattingRow`, its four cascading checks in the code's order. -/
def isBattingRow (firstCol secondCol : String) (divCount : Nat) : Bool :=
  if matchesOversPattern secondCol then false
  else if battingStatuses.any (fun st => goContains (lowerStr secondCol) st) then true
  else if skipRows.any (fun sk =>
      goContains (lowerStr firstCol) sk || goContains (lowerStr secondCol) sk) then false
  else if 6 ≤ divCount && divCount ≤ 8 && !(firstCol == "") then true
  else false

/-- The empty cell (index out of range never occurs for indices the Go
`Each` loop visits; `getD` with this default mirrors visiting only the
cells that exist). -/
def defaultCell : Cell := ⟨"", ""⟩

/-- The batting arm of `parseInningsInfo`: cell 0's trimmed `.Text()`
becomes the name; cells 1..6 pass their `.Html()` through `cleanHTML`.
The caller guarantees at least 6 cells, so only cell 6 needs an existence
guard (the Go loop visits only existing cells; its inner `j < divCount`
test at `case 6` is vacuously true there). -/
def parseBatsman (cells : List Cell) : BatsmanInfo :=
  { Name := goTrim (cells.getD 0 defaultCell).text
    Status := cleanHTML (cells.getD 1 defaultCell).html
    Runs := cleanHTML (cells.getD 2 defaultCell).html
    Balls := cleanHTML (cells.getD 3 defaultCell).html
    Fours := cleanHTML (cells.getD 4 defaultCell).html
    Sixes := cleanHTML (cells.getD 5 defaultCell).html
    StrikeRate := if 6 < cells.length then cleanHTML (cells.getD 6 defaultCell).html else "" }

/-- The bowling arm of `parseInningsInfo`: cell 0's trimmed `.Text()`
becomes the name; cells 1..7 pass their `.Html()` through `cleanHTML`. -/
def parseBowler (cells : List Cell) : BowlerInfo :=
  { Name := goTrim (cells.getD 0 defaultCell).text
    Overs := cleanHTML (cells.getD 1 defaultCell).html
    Maidens := cleanHTML (cells.getD 2 defaultCell).html
    Runs := cleanHTML (cells.getD 3 defaultCell).html
    Wickets := cleanHTML (cells.getD 4 defaultCell).html
    NoBalls := cleanHTML (cells.getD 5 defaultCell).html
    Wides := cleanHTML (cells.getD 6 defaultCell).html
    Economy := if 7 < cells.length then cleanHTML (cells.getD 7 defaultCell).html else "" }

/-- One iteration of the `div.cb-scrd-itms` loop of `parseInningsInfo`:
rows with fewer than 6 cells are ignored; otherwise the row is classified
by `isBattingRow` on the trimmed texts of its first two cells and the
extracted record is appended subject to the post-extraction name
filters. -/
def parseInningsRow (innings : MatchInningsInfo) (cells : List Cell) : MatchInningsInfo :=
  if 6 ≤ cells.length then
    let firstCol := goTrim (cells.getD 0 defaultCell).text
    let secondCol := goTrim (cells.getD 1 defaultCell).text
    if isBattingRow firstCol secondCol cells.length then
      let b := parseBatsman cells
      if !(b.Name == "") &&
         !(goContains (lowerStr b.Name) "extras") &&
         !(goContains (lowerStr b.Name) "total") &&
         !(goContains (lowerStr b.Name) "fall of wickets") then
        { innings with BatsmanDetails := innings.BatsmanDetails ++ [b] }
      else innings
    else
      let w := parseBowler cells
      if !(w.Name == "") then
        { innings with BowlerDetails := innings.BowlerDetails ++ [w] }
      else innings
  else innings

/-- `parseInningsInfo` over the rows of one innings container, in document
order. -/
def parseInningsInfo (rows : List (List Cell)) : MatchInningsInfo :=
  rows.foldl parseInningsRow {}

/-! ### LiveMatchDiscovery: `GetAllLiveMatches` -/

/-- One anchor of the `nav.cb-mat-mnu` region: its `.Text()` and its
`href` attribute (absent when `s.Attr` reports no such attribute). -/
structure Anchor where
  text : String
  href : Option String
deriving DecidableEq, Inhabited

/-- The per-anchor admission checks of `GetAllLiveMatches` up to (but not
including) the nested match-info fetch, in the code's order: trimmed text
nonempty and not the `MATCHES` heading; `strings.Split` on `"-"` yields at
least two parts with the second trimming to exactly `"Live"`; the `href`
exists, has at least three `/`-separated parts, and its third part parses
as a 32-bit unsigned integer.  Returns the display name (trimmed first
part) and the match id. -/
def anchorLiveEntry (a : Anchor) : Option (String × Nat) :=
  let text := goTrim a.text
  if text == "" || text == "MATCHES" then none
  else
    let parts := goSplit text '-'
    if 2 ≤ parts.length && goTrim (parts.getD 1 "") == "Live" then
      match a.href with
      | none => none
      | some href =>
        let pathParts := goSplit href '/'
        if pathParts.length < 3 then none
        else
          match parseUint32 (pathParts.getD 2 "") with
          | none => none
          | some id => some (goTrim (parts.getD 0 ""), id)
    else none

/-- The whole per-anchor body of the `Each` closure: an admitted entry is
resolved through `GetMatchInfo` (modelled by the `resolver` parameter); a
failed resolve contributes nothing; a successful one contributes the
resolved record with its `MatchShortName` set to the display name. -/
def processAnchor (resolver : Nat → Except String MatchInfo) (a : Anchor) :
    Option MatchInfo :=
  match anchorLiveEntry a with
  | none => none
  | some (nm, id) =>
    match resolver id with
    | .error _ => none
    | .ok mi => some { mi with MatchShortName := nm }

/-- `GetAllLiveMatches`: the homepage fetch-and-parse is a parameter (both
its failure modes abort the scan with an error); on success the anchors
are scanned in document order and the admitted, successfully resolved
entries are collected. -/
def GetAllLiveMatches (homepage : Except String (List Anchor))
    (resolver : Nat → Except String MatchInfo) : Except String (List MatchInfo) :=
  match homepage with
  | .error e => .error ("failed to fetch cricbuzz homepage: " ++ e)
  | .ok anchors => .ok (anchors.filterMap (processAnchor resolver))

/-! ### MatchInfoResolver: `GetMatchInfo`, and `App.UpdateMatches` -/

/-- The match summary API base URL. -/
def cricbuzzMatchAPI : String := "https://www.cricbuzz.com/api/mcenter/comm/"

/-- `GetMatchInfo`: the summary fetch and its JSON decode are fatal; a
scorecard failure (fetch or parse, `GetScorecard`'s combined outcome is
the `scorecard` parameter) is replaced by an empty scorecard. -/
def GetMatchInfo (matchID : Nat) (fetch : Except String String)
    (decode : String → Except String CricbuzzJSON)
    (scorecard : Except String (List MatchInningsInfo)) : Except String MatchInfo :=
  match fetch with
  | .error e => .error ("failed to fetch match info: " ++ e)
  | .ok body =>
    match decode body with
    | .error e => .error ("failed to decode JSON: " ++ e)
    | .ok j =>
      let sc := match scorecard with
        | .error _ => []
        | .ok s => s
      .ok { CricbuzzMatchID := matchID
            CricbuzzMatchAPILink := cricbuzzMatchAPI ++ toString matchID
            MatchShortName := ""
            CricbuzzInfo := j
            Scorecard := sc
            LastUpdated := 0 }

/-- `App.UpdateMatches`, following the method's control flow on the
`Matches` field: the first component is the returned error (if any), the
second the value of `a.Matches` when the method returns.  `getInfo` and
`getAll` model the two client calls, `now` the value of `time.Now()`. -/
def UpdateMatches (ms : List MatchInfo) (getInfo : Nat → Except String MatchInfo)
    (getAll : Except String (List MatchInfo)) (now : Nat) :
    Option String × List MatchInfo :=
  if ms.length = 1 then
    match getInfo (ms.getD 0 default).CricbuzzMatchID with
    | .error e => (some e, ms)
    | .ok mi =>
      (none, ms.set 0 { mi with MatchShortName := (ms.getD 0 default).MatchShortName,
                                LastUpdated := now })
  else
    match getAll with
    | .error e => (some e, ms)
    | .ok fresh => (none, fresh.map (fun m => { m with LastUpdated := now }))

/-! ### RateLimitedFetcher: `makeRequest`

Time is a discrete clock.  `time.Sleep(time.Until(lastRequest.Add(requestInterval)))`
blocks until the clock reads `lastRequest + requestInterval` (a sleep of
negative duration returns immediately), so a request arriving at clock
value `arrival` begins at `max arrival (lastRequest + requestInterval)`,
and `lastRequest = time.Now()` records that begin time — before the HTTP
GET is issued, hence independently of the request's outcome. -/

/-- `requestInterval = 1 * time.Second`, with the clock counted in
seconds. -/
def requestInterval : Nat := 1

/-- The clock value at which a `makeRequest` arriving at `arrival` begins,
given the shared `lastRequest` timestamp. -/
def makeRequestBegin (lastRequest arrival : Nat) : Nat :=
  max arrival (lastRequest + requestInterval)

/-- The begin times of a sequence of `makeRequest` calls with the given
arrival clock values, threading the shared `lastRequest` timestamp. -/
def beginTimes (lastRequest : Nat) : List Nat → List Nat
  | [] => []
  | a :: rest =>
    let b := makeRequestBegin lastRequest a
    b :: beginTimes b rest

/-! ### Spec-side definition for claim C3 -/

/-- Modelled from the spec's words, for comparison with the code: "split
its text on the first `-`" — the portion of the text strictly after the
first `-` (empty when there is no `-`). -/
def afterFirstDash (s : String) : String :=
  match findAfter '-' s.data with
  | some v => ⟨v⟩
  | none => ""

/-! ### Concrete inputs used by counterexamples and witnesses -/

/-- A six-cell summary row as emitted for an innings' extras line: first
cell `Extras`, second cell a plain run count. -/
def extrasRow : List Cell :=
  [⟨"Extras", "Extras"⟩, ⟨"10", "10"⟩, ⟨"(b 4, lb 2, w 4)", "(b 4, lb 2, w 4)"⟩,
   ⟨"0", "0"⟩, ⟨"1", "1"⟩, ⟨"5", "5"⟩]

/-- A six-cell batting row whose name cell contains a double space. -/
def doubleSpaceRow : List Cell :=
  [⟨"A  B", "A  B"⟩, ⟨"not out", "not out"⟩, ⟨"7", "7"⟩,
   ⟨"9", "9"⟩, ⟨"1", "1"⟩, ⟨"0", "0"⟩]

/-- A seven-cell bowling row. -/
def bowlingRow : List Cell :=
  [⟨"Khan", "Khan"⟩, ⟨"4.2", "4.2"⟩, ⟨"1", "1"⟩, ⟨"20", "20"⟩,
   ⟨"2", "2"⟩, ⟨"0", "0"⟩, ⟨"1", "1"⟩]

/-- An anchor whose text carries two dashes after the team names. -/
def twoDashAnchor : Anchor :=
  ⟨"IND - Live - 2nd T20", some "/live-cricket-scores/123/x"⟩

/-- An anchor for a live match. -/
def liveAnchor : Anchor := ⟨"IND vs AUS - Live", some "/live-cricket-scores/456/y"⟩

/-- An anchor for a finished match. -/
def resultAnchor : Anchor := ⟨"ENG vs NZ - Result", some "/live-cricket-scores/789/z"⟩

/-- A resolver that fails on match id 456 and succeeds elsewhere. -/
def demoResolver : Nat → Except String MatchInfo :=
  fun id => if id = 456 then .error "boom" else .ok { CricbuzzMatchID := id }

/-- A concrete fresh match record. -/
def freshInfo : MatchInfo :=
  { CricbuzzMatchID := 77, CricbuzzMatchAPILink := "L", MatchShortName := "",
    CricbuzzInfo := ⟨"json"⟩, Scorecard := [], LastUpdated := 0 }

/-- A concrete previous match record. -/
def oldInfo : MatchInfo :=
  { CricbuzzMatchID := 77, CricbuzzMatchAPILink := "L", MatchShortName := "IND vs AUS",
    CricbuzzInfo := ⟨"old"⟩, Scorecard := [], LastUpdated := 3 }

/-! ### Tag-freeness: the invariant behind the sanitizer's idempotence

After the final tag-stripping pass no `<` is ever followed (at any
distance) by a `>`, so no later pass over already-clean text can find a
match: every pattern the sanitizer removes starts with a `<` and ends with
a `>` further right. -/

/-- No `<` in the list has a `>` anywhere after it. -/
def tagFree : List Char → Bool
  | [] => true
  | c :: rest => (!(c == '<') || !(hasChar '>' rest)) && tagFree rest

theorem hasChar_iff_mem {x : Char} : ∀ {l : List Char}, hasChar x l = true ↔ x ∈ l := by
  intro l
  induction l with
  | nil => simp [hasChar]
  | cons c rest ih =>
    simp only [hasChar, Bool.or_eq_true, beq_iff_eq, ih, List.mem_cons]
    exact or_congr_left eq_comm

theorem hasChar_append {x : Char} (l₁ l₂ : List Char) :
    hasChar x (l₁ ++ l₂) = (hasChar x l₁ || hasChar x l₂) := by
  induction l₁ with
  | nil => simp [hasChar]
  | cons c rest ih => simp [hasChar, ih, Bool.or_assoc]

theorem findAfter_none {x : Char} : ∀ {l : List Char}, hasChar x l = false →
    findAfter x l = none := by
  intro l h
  induction l with
  | nil => rfl
  | cons c rest ih =>
    unfold hasChar at h
    rcases Bool.or_eq_false_iff.mp h with ⟨h1, h2⟩
    unfold findAfter
    simp [h1, ih h2]

theorem findAfter_mem {x : Char} : ∀ {l v : List Char}, findAfter x l = some v → x ∈ l := by
  intro l
  induction l with
  | nil => intro v h; cases h
  | cons c rest ih =>
    intro v h
    unfold findAfter at h
    by_cases hc : c == x
    · exact List.mem_cons.mpr (Or.inl (beq_iff_eq.mp hc).symm)
    · rw [if_neg hc] at h
      exact List.mem_cons_of_mem _ (ih h)

theorem findAfter_subset {x : Char} : ∀ {l v : List Char}, findAfter x l = some v →
    ∀ y ∈ v, y ∈ l := by
  intro l
  induction l with
  | nil => intro v h; cases h
  | cons c rest ih =>
    intro v h y hy
    unfold findAfter at h
    by_cases hc : c == x
    · rw [if_pos hc] at h
      cases h
      exact List.mem_cons_of_mem _ hy
    · rw [if_neg hc] at h
      exact List.mem_cons_of_mem _ (ih h y hy)

theorem findAfter_length {x : Char} : ∀ {l v : List Char}, findAfter x l = some v →
    v.length < l.length := by
  intro l
  induction l with
  | nil => intro v h; cases h
  | cons c rest ih =>
    intro v h
    unfold findAfter at h
    by_cases hc : c == x
    · rw [if_pos hc] at h
      cases h
      exact Nat.lt_succ_self _
    · rw [if_neg hc] at h
      exact Nat.lt_succ_of_lt (ih h)

theorem findAfter_isSome {x : Char} : ∀ {l : List Char}, hasChar x l = true →
    ∃ v, findAfter x l = some v := by
  intro l h
  induction l with
  | nil => cases h
  | cons c rest ih =>
    unfold findAfter
    by_cases hc : c == x
    · exact ⟨rest, if_pos hc⟩
    · unfold hasChar at h
      rw [Bool.or_eq_true] at h
      rcases h with h1 | h2
      · exact absurd h1 hc
      · obtain ⟨v, hv⟩ := ih h2
        exact ⟨v, by rw [if_neg hc]; exact hv⟩

theorem prefixOf_subset {p l : List Char} (h : p.isPrefixOf l = true) :
    ∀ x ∈ p, x ∈ l :=
  fun _ hx => (List.isPrefixOf_iff_prefix.mp h).subset hx

theorem tagFree_tail {c : Char} {rest : List Char} (h : tagFree (c :: rest) = true) :
    tagFree rest = true := by
  unfold tagFree at h
  simp only [Bool.and_eq_true] at h
  exact h.2

theorem tagFree_no_gt {rest : List Char} (h : tagFree ('<' :: rest) = true) :
    hasChar '>' rest = false := by
  unfold tagFree at h
  simp only [Bool.and_eq_true] at h
  simpa using h.1

theorem tagFree_append_right : ∀ {l₁ l₂ : List Char}, tagFree (l₁ ++ l₂) = true →
    tagFree l₂ = true := by
  intro l₁
  induction l₁ with
  | nil => intro l₂ h; exact h
  | cons c rest ih => intro l₂ h; exact ih (tagFree_tail h)

theorem tagFree_append_left : ∀ {l₁ l₂ : List Char}, tagFree (l₁ ++ l₂) = true →
    tagFree l₁ = true := by
  intro l₁
  induction l₁ with
  | nil => intro l₂ h; rfl
  | cons c rest ih =>
    intro l₂ h
    rw [List.cons_append] at h
    unfold tagFree at h ⊢
    simp only [Bool.and_eq_true, Bool.or_eq_true] at h ⊢
    rcases h with ⟨h1, h2⟩
    refine ⟨?_, ih h2⟩
    rcases h1 with h1a | h1b
    · exact Or.inl h1a
    · right
      rw [Bool.not_eq_true'] at h1b ⊢
      rw [hasChar_append] at h1b
      exact (Bool.or_eq_false_iff.mp h1b).1

theorem mem_stripTagsF : ∀ (fuel : Nat) (l : List Char) (x : Char),
    x ∈ stripTagsF fuel l → x ∈ l := by
  intro fuel
  induction fuel with
  | zero =>
    intro l x h
    cases l with
    | nil => simp [stripTagsF] at h
    | cons c rest => simpa [stripTagsF] using h
  | succ fuel ih =>
    intro l x h
    cases l with
    | nil => simp [stripTagsF] at h
    | cons c rest =>
      simp only [stripTagsF] at h
      by_cases hc : c == '<'
      · rw [if_pos hc] at h
        cases hf : findAfter '>' rest with
        | some rest2 =>
          rw [hf] at h
          exact List.mem_cons_of_mem _ (findAfter_subset hf x (ih rest2 x h))
        | none =>
          rw [hf] at h
          rcases List.mem_cons.mp h with h1 | h2
          · exact h1 ▸ List.mem_cons_self c rest
          · exact List.mem_cons_of_mem _ (ih rest x h2)
      · rw [if_neg hc] at h
        rcases List.mem_cons.mp h with h1 | h2
        · exact h1 ▸ List.mem_cons_self c rest
        · exact List.mem_cons_of_mem _ (ih rest x h2)

theorem stripTagsF_tagFree : ∀ (fuel : Nat) (l : List Char), l.length ≤ fuel →
    tagFree (stripTagsF fuel l) = true := by
  intro fuel
  induction fuel with
  | zero =>
    intro l hl
    have : l = [] := List.eq_nil_of_length_eq_zero (Nat.le_zero.mp hl)
    subst this
    rfl
  | succ fuel ih =>
    intro l hl
    cases l with
    | nil => rfl
    | cons c rest =>
      have hrest : rest.length ≤ fuel := Nat.le_of_succ_le_succ hl
      simp only [stripTagsF]
      by_cases hc : c == '<'
      · rw [if_pos hc]
        cases hf : findAfter '>' rest with
        | some rest2 =>
          exact ih rest2 (Nat.le_of_lt (Nat.lt_of_lt_of_le (findAfter_length hf) hrest))
        | none =>
          unfold tagFree
          simp only [Bool.and_eq_true, Bool.or_eq_true]
          refine ⟨Or.inr ?_, ih rest hrest⟩
          rw [Bool.not_eq_true']
          cases hne : hasChar '>' (stripTagsF fuel rest) with
          | false => rfl
          | true =>
            exfalso
            have hmem : '>' ∈ stripTagsF fuel rest := hasChar_iff_mem.mp hne
            have hr : hasChar '>' rest = true :=
              hasChar_iff_mem.mpr (mem_stripTagsF fuel rest '>' hmem)
            obtain ⟨v, hv⟩ := findAfter_isSome hr
            rw [hv] at hf
            cases hf
      · rw [if_neg hc]
        unfold tagFree
        simp only [Bool.and_eq_true, Bool.or_eq_true]
        exact ⟨Or.inl (by simpa using hc), ih rest hrest⟩

theorem stripTagsF_id : ∀ (fuel : Nat) (l : List Char), tagFree l = true →
    stripTagsF fuel l = l := by
  intro fuel
  induction fuel with
  | zero =>
    intro l _
    cases l with
    | nil => rfl
    | cons c rest => rfl
  | succ fuel ih =>
    intro l h
    cases l with
    | nil => rfl
    | cons c rest =>
      simp only [stripTagsF]
      by_cases hc : c == '<'
      · rw [if_pos hc]
        have hceq : c = '<' := beq_iff_eq.mp hc
        subst hceq
        rw [findAfter_none (tagFree_no_gt h)]
        rw [ih rest (tagFree_tail h)]
      · rw [if_neg hc, ih rest (tagFree_tail h)]

theorem hasChar_false_of_not_mem {x : Char} {l : List Char} (h : x ∉ l) :
    hasChar x l = false := by
  cases hx : hasChar x l with
  | false => rfl
  | true => exact absurd (hasChar_iff_mem.mp hx) h

theorem removeAllSubF_id : ∀ (fuel : Nat) (pt l : List Char), hasChar '>' pt = true →
    tagFree l = true → removeAllSubF fuel ('<' :: pt) l = l := by
  intro fuel
  induction fuel with
  | zero =>
    intro pt l _ _
    cases l with
    | nil => rfl
    | cons c rest => rfl
  | succ fuel ih =>
    intro pt l hpt h
    cases l with
    | nil => rfl
    | cons c rest =>
      simp only [removeAllSubF]
      have hnp : ('<' :: pt).isPrefixOf (c :: rest) = false := by
        cases hp : ('<' :: pt).isPrefixOf (c :: rest) with
        | false => rfl
        | true =>
          exfalso
          have hpre := List.isPrefixOf_iff_prefix.mp hp
          rcases List.cons_prefix_cons.mp hpre with ⟨hceq, hptpre⟩
          subst hceq
          have : '>' ∈ rest := hptpre.subset (hasChar_iff_mem.mp hpt)
          have hgt := tagFree_no_gt h
          rw [hasChar_iff_mem.mpr this] at hgt
          cases hgt
      rw [hnp]
      simp only [Bool.false_eq_true, if_false]
      rw [ih pt rest hpt (tagFree_tail h)]

theorem replATagF_id : ∀ (fuel : Nat) (l : List Char), tagFree l = true →
    replATagF fuel l = l := by
  intro fuel
  induction fuel with
  | zero =>
    intro l _
    cases l with
    | nil => rfl
    | cons c rest => rfl
  | succ fuel ih =>
    intro l h
    cases l with
    | nil => rfl
    | cons c rest =>
      simp only [replATagF]
      by_cases hp : ['<', 'a'].isPrefixOf (c :: rest) = true
      · rw [if_pos hp]
        have hpre := List.isPrefixOf_iff_prefix.mp hp
        rcases List.cons_prefix_cons.mp hpre with ⟨hceq, _⟩
        subst hceq
        have hgt := tagFree_no_gt h
        have hnd : hasChar '>' (rest.drop 1) = false := by
          apply hasChar_false_of_not_mem
          intro hmem
          have : '>' ∈ rest := List.mem_of_mem_drop hmem
          rw [hasChar_iff_mem.mpr this] at hgt
          cases hgt
        rw [findAfter_none hnd]
        rw [ih rest (tagFree_tail h)]
      · rw [if_neg hp, ih rest (tagFree_tail h)]

theorem tryA_gt_mem {u : List Char} {a : Nat} {v : List Char} (h : tryA u a = some v) :
    '>' ∈ u := by
  unfold tryA at h
  by_cases hcond : ((u.take a).all (fun c => !(c == '>')) && classQuote.isPrefixOf (u.drop a)) = true
  · rw [if_pos hcond] at h
    cases hw : findAfter '"' (u.drop (a + 7)) with
    | some w =>
      rw [hw] at h
      have hgtw : '>' ∈ w := findAfter_mem h
      have : '>' ∈ u.drop (a + 7) := findAfter_subset hw '>' hgtw
      exact List.mem_of_mem_drop this
    | none => rw [hw] at h; cases h
  · rw [if_neg hcond] at h; cases h

theorem tryFrom_gt_mem {u : List Char} : ∀ {a : Nat} {v : List Char},
    tryFrom u a = some v → '>' ∈ u := by
  intro a
  induction a with
  | zero => intro v h; exact tryA_gt_mem h
  | succ a ih =>
    intro v h
    unfold tryFrom at h
    cases ht : tryA u (a + 1) with
    | some w => rw [ht] at h; exact tryA_gt_mem ht
    | none => rw [ht] at h; exact ih h

theorem spanMatchEnd_gt_mem {u v : List Char} (h : spanMatchEnd u = some v) : '>' ∈ u :=
  tryFrom_gt_mem h

theorem replSpanOpenF_id : ∀ (fuel : Nat) (l : List Char), tagFree l = true →
    replSpanOpenF fuel l = l := by
  intro fuel
  induction fuel with
  | zero =>
    intro l _
    cases l with
    | nil => rfl
    | cons c rest => rfl
  | succ fuel ih =>
    intro l h
    cases l with
    | nil => rfl
    | cons c rest =>
      simp only [replSpanOpenF]
      by_cases hp : spanLit.isPrefixOf (c :: rest) = true
      · rw [if_pos hp]
        have hpre := List.isPrefixOf_iff_prefix.mp hp
        have hpre2 : '<' :: ['s', 'p', 'a', 'n'] <+: c :: rest := hpre
        rcases List.cons_prefix_cons.mp hpre2 with ⟨hceq, _⟩
        subst hceq
        have hgt := tagFree_no_gt h
        have hnone : spanMatchEnd (('<' :: rest).drop 5) = none := by
          cases hm : spanMatchEnd (('<' :: rest).drop 5) with
          | none => rfl
          | some v =>
            exfalso
            have hmem : '>' ∈ ('<' :: rest).drop 5 := spanMatchEnd_gt_mem hm
            have : '>' ∈ rest := by
              rw [List.drop_succ_cons] at hmem
              exact List.mem_of_mem_drop hmem
            rw [hasChar_iff_mem.mpr this] at hgt
            cases hgt
        rw [hnone]
        rw [ih rest (tagFree_tail h)]
      · rw [if_neg hp, ih rest (tagFree_tail h)]

theorem reSpace_goIsSpace (c : Char) (h : reSpace c = true) : goIsSpace c = true := by
  simp only [reSpace, Bool.or_eq_true, beq_iff_eq] at h
  rcases h with ((((h | h) | h) | h) | h) <;> subst h <;> decide

theorem mem_csAux : ∀ (l : List Char) (b : Bool) (x : Char), x ∈ csAux b l →
    x = ' ' ∨ x ∈ l := by
  intro l
  induction l with
  | nil => intro b x hx; cases hx
  | cons c rest ih =>
    intro b x hx
    by_cases hc : reSpace c = true
    · rw [show csAux b (c :: rest) = if b then csAux true rest else ' ' :: csAux true rest from by
        simp [csAux, hc]] at hx
      cases b with
      | true =>
        simp only [if_true] at hx
        rcases ih true x hx with h1 | h2
        · exact Or.inl h1
        · exact Or.inr (List.mem_cons_of_mem _ h2)
      | false =>
        simp only [Bool.false_eq_true, if_false] at hx
        rcases List.mem_cons.mp hx with h1 | h2
        · exact Or.inl h1
        · rcases ih true x h2 with h3 | h4
          · exact Or.inl h3
          · exact Or.inr (List.mem_cons_of_mem _ h4)
    · rw [show csAux b (c :: rest) = c :: csAux false rest from by simp [csAux, hc]] at hx
      rcases List.mem_cons.mp hx with h1 | h2
      · exact Or.inr (h1 ▸ List.mem_cons_self c rest)
      · rcases ih false x h2 with h3 | h4
        · exact Or.inl h3
        · exact Or.inr (List.mem_cons_of_mem _ h4)

theorem csAux_no_gt {l : List Char} (b : Bool) (h : hasChar '>' l = false) :
    hasChar '>' (csAux b l) = false := by
  apply hasChar_false_of_not_mem
  intro hmem
  rcases mem_csAux l b '>' hmem with h1 | h2
  · exact absurd h1 (by decide)
  · rw [hasChar_iff_mem.mpr h2] at h
    cases h

theorem csAux_tagFree : ∀ (l : List Char) (b : Bool), tagFree l = true →
    tagFree (csAux b l) = true := by
  intro l
  induction l with
  | nil => intro b _; rfl
  | cons c rest ih =>
    intro b h
    by_cases hc : reSpace c = true
    · rw [show csAux b (c :: rest) = if b then csAux true rest else ' ' :: csAux true rest from by
        simp [csAux, hc]]
      cases b with
      | true => simpa using ih true (tagFree_tail h)
      | false =>
        simp only [Bool.false_eq_true, if_false]
        unfold tagFree
        simp only [Bool.and_eq_true, Bool.or_eq_true]
        exact ⟨Or.inl (by decide), ih true (tagFree_tail h)⟩
    · rw [show csAux b (c :: rest) = c :: csAux false rest from by simp [csAux, hc]]
      unfold tagFree
      simp only [Bool.and_eq_true, Bool.or_eq_true]
      refine ⟨?_, ih false (tagFree_tail h)⟩
      by_cases hlt : c == '<'
      · right
        rw [Bool.not_eq_true']
        have hceq : c = '<' := beq_iff_eq.mp hlt
        subst hceq
        exact csAux_no_gt false (tagFree_no_gt h)
      · exact Or.inl (by simpa using hlt)

theorem csAux_idem : ∀ (l : List Char) (b : Bool), csAux b (csAux b l) = csAux b l := by
  intro l
  induction l with
  | nil => intro b; rfl
  | cons c rest ih =>
    intro b
    by_cases hc : reSpace c = true
    · rw [show csAux b (c :: rest) = if b then csAux true rest else ' ' :: csAux true rest from by
        simp [csAux, hc]]
      cases b with
      | true => simpa using ih true
      | false =>
        simp only [Bool.false_eq_true, if_false]
        rw [show csAux false (' ' :: csAux true rest) = ' ' :: csAux true (csAux true rest) from by
          simp [csAux, (by decide : reSpace ' ' = true)]]
        rw [ih true]
    · rw [show csAux b (c :: rest) = c :: csAux false rest from by simp [csAux, hc]]
      rw [show csAux b (c :: csAux false rest) = c :: csAux false (csAux false rest) from by
        simp [csAux, hc]]
      rw [ih false]

theorem csAux_false_ne_nil (c : Char) (rest : List Char) : csAux false (c :: rest) ≠ [] := by
  intro h
  by_cases hc : reSpace c = true
  · rw [show csAux false (c :: rest) = ' ' :: csAux true rest from by simp [csAux, hc]] at h
    cases h
  · rw [show csAux false (c :: rest) = c :: csAux false rest from by simp [csAux, hc]] at h
    cases h

theorem csAux_true_nil : ∀ (l : List Char), csAux true l = [] → ∀ y ∈ l, reSpace y = true := by
  intro l
  induction l with
  | nil => intro _ y hy; cases hy
  | cons c rest ih =>
    intro h y hy
    by_cases hc : reSpace c = true
    · rw [show csAux true (c :: rest) = csAux true rest from by simp [csAux, hc]] at h
      rcases List.mem_cons.mp hy with h1 | h2
      · exact h1 ▸ hc
      · exact ih h y h2
    · rw [show csAux true (c :: rest) = c :: csAux false rest from by simp [csAux, hc]] at h
      cases h

theorem getLast?_cons_ne {a : Char} {l : List Char} (h : l ≠ []) :
    (a :: l).getLast? = l.getLast? := by
  cases l with
  | nil => exact absurd rfl h
  | cons b bs => exact List.getLast?_cons_cons

theorem csAux_getLast : ∀ (l : List Char) (b : Bool),
    (∀ y, l.getLast? = some y → goIsSpace y = false) →
    ∀ x, (csAux b l).getLast? = some x → goIsSpace x = false := by
  intro l
  induction l with
  | nil => intro b _ x hx; cases hx
  | cons c rest ih =>
    intro b hl x hx
    by_cases hc : reSpace c = true
    · cases rest with
      | nil =>
        have h1 : goIsSpace c = false := hl c rfl
        rw [reSpace_goIsSpace c hc] at h1
        cases h1
      | cons r rs =>
        have hl2 : ∀ y, (r :: rs).getLast? = some y → goIsSpace y = false := by
          intro y hy
          apply hl
          rw [List.getLast?_cons_cons]
          exact hy
        rw [show csAux b (c :: r :: rs) =
            if b then csAux true (r :: rs) else ' ' :: csAux true (r :: rs) from by
          simp [csAux, hc]] at hx
        cases b with
        | true =>
          rw [if_pos rfl] at hx
          exact ih true hl2 x hx
        | false =>
          simp only [Bool.false_eq_true, if_false] at hx
          cases hnil : csAux true (r :: rs) with
          | nil =>
            exfalso
            have hall := csAux_true_nil (r :: rs) hnil
            have hne : (r :: rs) ≠ ([] : List Char) := by simp
            have hsome : (r :: rs).getLast? = some ((r :: rs).getLast hne) :=
              List.getLast?_eq_getLast (r :: rs) hne
            have hns := hl2 _ hsome
            have hmem := List.getLast_mem hne
            rw [reSpace_goIsSpace _ (hall _ hmem)] at hns
            cases hns
          | cons z zs =>
            rw [hnil, List.getLast?_cons_cons, ← hnil] at hx
            exact ih true hl2 x hx
    · rw [show csAux b (c :: rest) = c :: csAux false rest from by simp [csAux, hc]] at hx
      cases rest with
      | nil =>
        simp [csAux] at hx
        rw [← hx]
        exact hl c rfl
      | cons r rs =>
        have hl2 : ∀ y, (r :: rs).getLast? = some y → goIsSpace y = false := by
          intro y hy
          apply hl
          rw [List.getLast?_cons_cons]
          exact hy
        cases hnil : csAux false (r :: rs) with
        | nil => exact absurd hnil (csAux_false_ne_nil r rs)
        | cons z zs =>
          rw [hnil, List.getLast?_cons_cons, ← hnil] at hx
          exact ih false hl2 x hx

theorem head_dropWhile_not (p : Char → Bool) : ∀ (l : List Char) (x : Char),
    (l.dropWhile p).head? = some x → p x = false := by
  intro l
  induction l with
  | nil => intro x hx; cases hx
  | cons c rest ih =>
    intro x hx
    by_cases hc : p c = true
    · rw [List.dropWhile_cons, if_pos hc] at hx
      exact ih x hx
    · have hcf : p c = false := by
        cases hcc : p c with
        | false => rfl
        | true => exact absurd hcc hc
      rw [List.dropWhile_cons, hcf] at hx
      simp only [Bool.false_eq_true, if_false, List.head?_cons, Option.some.injEq] at hx
      rw [← hx]
      exact hcf

theorem dropWhile_eq_self_of_head (p : Char → Bool) (l : List Char)
    (h : ∀ x, l.head? = some x → p x = false) : l.dropWhile p = l := by
  cases l with
  | nil => rfl
  | cons c rest =>
    rw [List.dropWhile_cons, h c rfl]
    simp

theorem trimRight_decomp (l : List Char) :
    l = trimRightL l ++ (l.reverse.takeWhile goIsSpace).reverse := by
  unfold trimRightL
  rw [← List.reverse_append, List.takeWhile_append_dropWhile, List.reverse_reverse]

theorem getLast_trimRightL_not (l : List Char) (x : Char)
    (hx : (trimRightL l).getLast? = some x) : goIsSpace x = false := by
  unfold trimRightL at hx
  rw [List.getLast?_reverse] at hx
  exact head_dropWhile_not goIsSpace l.reverse x hx

theorem head_of_trimRightL (l : List Char) (x : Char)
    (hx : (trimRightL l).head? = some x) : l.head? = some x := by
  have hd := trimRight_decomp l
  cases htr : trimRightL l with
  | nil => rw [htr] at hx; cases hx
  | cons z zs =>
    rw [htr] at hx hd
    rw [hd, List.cons_append, List.head?_cons]
    simpa using hx

theorem head_trimList_not (l : List Char) (x : Char)
    (hx : (trimList l).head? = some x) : goIsSpace x = false := by
  unfold trimList at hx
  have h2 := head_of_trimRightL _ _ hx
  unfold trimLeftL at h2
  exact head_dropWhile_not goIsSpace l x h2

theorem getLast_trimList_not (l : List Char) (x : Char)
    (hx : (trimList l).getLast? = some x) : goIsSpace x = false := by
  unfold trimList at hx
  exact getLast_trimRightL_not _ x hx

theorem tagFree_trimList (l : List Char) (h : tagFree l = true) :
    tagFree (trimList l) = true := by
  unfold trimList
  have h1 : tagFree (trimLeftL l) = true := by
    unfold trimLeftL
    exact tagFree_append_right (by rw [List.takeWhile_append_dropWhile]; exact h)
  have hd2 := trimRight_decomp (trimLeftL l)
  exact tagFree_append_left (by rw [← hd2]; exact h1)

theorem cleanList_eq (l : List Char) : cleanList l =
    collapseSpaces (trimList (stripTags (removeAllSub ['<', '/', 's', 't', 'r', 'o', 'n', 'g', '>']
      (removeAllSub ['<', 's', 't', 'r', 'o', 'n', 'g', '>'] (removeAllSub ['<', '/', 'a', '>']
        (replATag (removeAllSub ['<', '/', 's', 'p', 'a', 'n', '>'] (replSpanOpen l)))))))) := rfl

theorem tagFree_cleanList (l : List Char) : tagFree (cleanList l) = true := by
  rw [cleanList_eq]
  unfold collapseSpaces
  apply csAux_tagFree
  apply tagFree_trimList
  unfold stripTags
  exact stripTagsF_tagFree _ _ le_rfl

theorem collapse_head_not (t : List Char)
    (hhead : ∀ y, t.head? = some y → goIsSpace y = false) :
    ∀ x, (collapseSpaces t).head? = some x → goIsSpace x = false := by
  cases t with
  | nil => intro x hx; cases hx
  | cons c rest =>
    intro x hx
    have hcg : goIsSpace c = false := hhead c rfl
    have hcr : reSpace c = false := by
      cases hc2 : reSpace c with
      | false => rfl
      | true => rw [reSpace_goIsSpace c hc2] at hcg; cases hcg
    unfold collapseSpaces at hx
    rw [show csAux false (c :: rest) = c :: csAux false rest from by simp [csAux, hcr]] at hx
    simp only [List.head?_cons, Option.some.injEq] at hx
    rw [← hx]
    exact hcg

theorem cleanList_fixed (l : List Char) : cleanList (cleanList l) = cleanList l := by
  have htf : tagFree (cleanList l) = true := tagFree_cleanList l
  have hhead : ∀ x, (cleanList l).head? = some x → goIsSpace x = false := by
    intro x hx
    rw [cleanList_eq] at hx
    exact collapse_head_not _ (fun y hy => head_trimList_not _ y hy) x hx
  have hlast : ∀ x, (cleanList l).getLast? = some x → goIsSpace x = false := by
    intro x hx
    rw [cleanList_eq] at hx
    exact csAux_getLast _ false (fun y hy => getLast_trimList_not _ y hy) x hx
  have e1 : replSpanOpen (cleanList l) = cleanList l := replSpanOpenF_id _ _ htf
  have e2 : removeAllSub ['<', '/', 's', 'p', 'a', 'n', '>'] (cleanList l) = cleanList l :=
    removeAllSubF_id _ ['/', 's', 'p', 'a', 'n', '>'] _ (by decide) htf
  have e3 : replATag (cleanList l) = cleanList l := replATagF_id _ _ htf
  have e4 : removeAllSub ['<', '/', 'a', '>'] (cleanList l) = cleanList l :=
    removeAllSubF_id _ ['/', 'a', '>'] _ (by decide) htf
  have e5 : removeAllSub ['<', 's', 't', 'r', 'o', 'n', 'g', '>'] (cleanList l) = cleanList l :=
    removeAllSubF_id _ ['s', 't', 'r', 'o', 'n', 'g', '>'] _ (by decide) htf
  have e6 : removeAllSub ['<', '/', 's', 't', 'r', 'o', 'n', 'g', '>'] (cleanList l) = cleanList l :=
    removeAllSubF_id _ ['/', 's', 't', 'r', 'o', 'n', 'g', '>'] _ (by decide) htf
  have e7 : stripTags (cleanList l) = cleanList l := stripTagsF_id _ _ htf
  have htrim : trimList (cleanList l) = cleanList l := by
    have h1 : trimLeftL (cleanList l) = cleanList l :=
      dropWhile_eq_self_of_head _ _ hhead
    have h2 : trimRightL (cleanList l) = cleanList l := by
      unfold trimRightL
      rw [dropWhile_eq_self_of_head goIsSpace (cleanList l).reverse (by
        intro x hx
        rw [List.head?_reverse] at hx
        exact hlast x hx)]
      exact List.reverse_reverse _
    unfold trimList
    rw [h1, h2]
  have hcoll : collapseSpaces (cleanList l) = cleanList l := by
    rw [cleanList_eq l]
    unfold collapseSpaces
    exact csAux_idem _ false
  conv_lhs => rw [cleanList_eq (cleanList l)]
  rw [e1, e2, e3, e4, e5, e6, e7, htrim, hcoll]

theorem data_mk (l : List Char) : String.data ⟨l⟩ = l := rfl

theorem cleanHTML_of_ne (t : String) (h : (t == "") = false) :
    cleanHTML t = ⟨cleanList t.data⟩ := by
  unfold cleanHTML
  rw [if_neg (by
    intro hcontra
    rw [h] at hcontra
    exact Bool.false_ne_true hcontra)]

/-- C7: the sanitizer is idempotent — re-sanitizing already-clean text is a
no-op: for every input string `s`, `cleanHTML (cleanHTML s) = cleanHTML s`. -/
theorem c7_cleanHTML_idempotent (s : String) : cleanHTML (cleanHTML s) = cleanHTML s := by
  by_cases hs : s = ""
  · subst hs
    rfl
  · have hsb : (s == "") = false := by
      cases hb : s == "" with
      | false => rfl
      | true => exact absurd (beq_iff_eq.mp hb) hs
    rw [cleanHTML_of_ne s hsb]
    by_cases hz : cleanList s.data = []
    · rw [hz]
      rfl
    · have hne : ((⟨cleanList s.data⟩ : String) == "") = false := by
        cases hb : (⟨cleanList s.data⟩ : String) == "" with
        | false => rfl
        | true =>
          exfalso
          have hd : (⟨cleanList s.data⟩ : String) = "" := beq_iff_eq.mp hb
          rw [show ("" : String) = ⟨[]⟩ from rfl] at hd
          injection hd with hd2
          exact hz hd2
      rw [cleanHTML_of_ne _ hne, data_mk, cleanList_fixed]

/-! ### Extractor lemmas -/

theorem parseInningsRow_bat_mem {acc : MatchInningsInfo} {cells : List Cell} {b : BatsmanInfo}
    (h : b ∈ (parseInningsRow acc cells).BatsmanDetails) :
    b ∈ acc.BatsmanDetails ∨
      (6 ≤ cells.length ∧ b = parseBatsman cells ∧
       (b.Name == "") = false ∧ goContains (lowerStr b.Name) "extras" = false ∧
       goContains (lowerStr b.Name) "total" = false ∧
       goContains (lowerStr b.Name) "fall of wickets" = false) := by
  by_cases h6 : 6 ≤ cells.length
  · simp only [parseInningsRow, if_pos h6] at h
    by_cases hbat : isBattingRow (goTrim (cells.getD 0 defaultCell).text)
        (goTrim (cells.getD 1 defaultCell).text) cells.length = true
    · rw [if_pos hbat] at h
      by_cases hname : (!(parseBatsman cells).Name == "" &&
          !goContains (lowerStr (parseBatsman cells).Name) "extras" &&
          !goContains (lowerStr (parseBatsman cells).Name) "total" &&
          !goContains (lowerStr (parseBatsman cells).Name) "fall of wickets") = true
      · rw [if_pos hname] at h
        simp only [List.mem_append, List.mem_singleton] at h
        rcases h with h1 | h2
        · exact Or.inl h1
        · subst h2
          simp only [Bool.and_eq_true, Bool.not_eq_true'] at hname
          exact Or.inr ⟨h6, rfl, hname.1.1.1, hname.1.1.2, hname.1.2, hname.2⟩
      · rw [if_neg hname] at h
        exact Or.inl h
    · rw [if_neg hbat] at h
      by_cases hname : (!(parseBowler cells).Name == "") = true
      · rw [if_pos hname] at h
        exact Or.inl h
      · rw [if_neg hname] at h
        exact Or.inl h
  · simp only [parseInningsRow, if_neg h6] at h
    exact Or.inl h

theorem parseInningsRow_bowl_mem {acc : MatchInningsInfo} {cells : List Cell} {w : BowlerInfo}
    (h : w ∈ (parseInningsRow acc cells).BowlerDetails) :
    w ∈ acc.BowlerDetails ∨
      (6 ≤ cells.length ∧ w = parseBowler cells ∧ (w.Name == "") = false) := by
  by_cases h6 : 6 ≤ cells.length
  · simp only [parseInningsRow, if_pos h6] at h
    by_cases hbat : isBattingRow (goTrim (cells.getD 0 defaultCell).text)
        (goTrim (cells.getD 1 defaultCell).text) cells.length = true
    · rw [if_pos hbat] at h
      by_cases hname : (!(parseBatsman cells).Name == "" &&
          !goContains (lowerStr (parseBatsman cells).Name) "extras" &&
          !goContains (lowerStr (parseBatsman cells).Name) "total" &&
          !goContains (lowerStr (parseBatsman cells).Name) "fall of wickets") = true
      · rw [if_pos hname] at h
        exact Or.inl h
      · rw [if_neg hname] at h
        exact Or.inl h
    · rw [if_neg hbat] at h
      by_cases hname : (!(parseBowler cells).Name == "") = true
      · rw [if_pos hname] at h
        simp only [List.mem_append, List.mem_singleton] at h
        rcases h with h1 | h2
        · exact Or.inl h1
        · subst h2
          simp only [Bool.not_eq_true'] at hname
          exact Or.inr ⟨h6, rfl, hname⟩
      · rw [if_neg hname] at h
        exact Or.inl h
  · simp only [parseInningsRow, if_neg h6] at h
    exact Or.inl h

theorem parseInnings_fold_bat : ∀ (rows : List (List Cell)) (acc : MatchInningsInfo)
    (b : BatsmanInfo), b ∈ (rows.foldl parseInningsRow acc).BatsmanDetails →
    b ∈ acc.BatsmanDetails ∨
      ∃ cells, cells ∈ rows ∧ 6 ≤ cells.length ∧ b = parseBatsman cells ∧
        (b.Name == "") = false ∧ goContains (lowerStr b.Name) "extras" = false ∧
        goContains (lowerStr b.Name) "total" = false ∧
        goContains (lowerStr b.Name) "fall of wickets" = false := by
  intro rows
  induction rows with
  | nil => intro acc b h; exact Or.inl h
  | cons r rows ih =>
    intro acc b h
    rw [List.foldl_cons] at h
    rcases ih (parseInningsRow acc r) b h with h1 | ⟨cells, hmem, hrest⟩
    · rcases parseInningsRow_bat_mem h1 with h2 | ⟨h6, hb, hn⟩
      · exact Or.inl h2
      · exact Or.inr ⟨r, List.mem_cons_self r rows, h6, hb, hn⟩
    · exact Or.inr ⟨cells, List.mem_cons_of_mem r hmem, hrest⟩

theorem parseInnings_fold_bowl : ∀ (rows : List (List Cell)) (acc : MatchInningsInfo)
    (w : BowlerInfo), w ∈ (rows.foldl parseInningsRow acc).BowlerDetails →
    w ∈ acc.BowlerDetails ∨
      ∃ cells, cells ∈ rows ∧ 6 ≤ cells.length ∧ w = parseBowler cells ∧
        (w.Name == "") = false := by
  intro rows
  induction rows with
  | nil => intro acc w h; exact Or.inl h
  | cons r rows ih =>
    intro acc w h
    rw [List.foldl_cons] at h
    rcases ih (parseInningsRow acc r) w h with h1 | ⟨cells, hmem, hrest⟩
    · rcases parseInningsRow_bowl_mem h1 with h2 | ⟨h6, hb, hn⟩
      · exact Or.inl h2
      · exact Or.inr ⟨r, List.mem_cons_self r rows, h6, hb, hn⟩
    · exact Or.inr ⟨cells, List.mem_cons_of_mem r hmem, hrest⟩

theorem beq_empty_false_ne {s : String} (h : (s == "") = false) : s ≠ "" := by
  intro he
  rw [he] at h
  simp at h

/-! ### Claim C1 -/

/-- C1 counterexample: the claim "every record's name is non-empty and
never equals, case-insensitively, a category label" fails for bowler
records: the six-cell `Extras` summary row is classified as bowling
(`isBattingRow` returns false at its label check) and the bowling arm
filters only on emptiness, so `parseInningsInfo` emits a `BowlerInfo`
whose name is `Extras` — equal, case-insensitively, to the label
`extras`. -/
theorem c1_counterexample :
    (parseInningsInfo [extrasRow]).BowlerDetails.map BowlerInfo.Name = ["Extras"] ∧
    lowerStr "Extras" = "extras" := by decide

/-- C1 (amended): every batsman record produced by `parseInningsInfo` has
a non-empty name whose lowercasing does not even contain `extras`,
`total`, or `fall of wickets` (hence never equals a label
case-insensitively); every bowler record has a non-empty name, and nothing
more — a bowler record's name can equal a category label. -/
theorem c1_record_names (rows : List (List Cell)) :
    (∀ b ∈ (parseInningsInfo rows).BatsmanDetails,
        b.Name ≠ "" ∧ goContains (lowerStr b.Name) "extras" = false ∧
        goContains (lowerStr b.Name) "total" = false ∧
        goContains (lowerStr b.Name) "fall of wickets" = false) ∧
    (∀ w ∈ (parseInningsInfo rows).BowlerDetails, w.Name ≠ "") := by
  constructor
  · intro b hb
    rcases parseInnings_fold_bat rows {} b hb with h1 | ⟨_, _, _, _, hne, h2, h3, h4⟩
    · cases h1
    · exact ⟨beq_empty_false_ne hne, h2, h3, h4⟩
  · intro w hw
    rcases parseInnings_fold_bowl rows {} w hw with h1 | ⟨_, _, _, _, hne⟩
    · cases h1
    · exact beq_empty_false_ne hne

/-- C1 witness: the amended invariant evaluated on a concrete batting row
and a concrete bowling row. -/
theorem c1_witness :
    ((parseBatsman doubleSpaceRow).Name ≠ "" ∧
     goContains (lowerStr (parseBatsman doubleSpaceRow).Name) "extras" = false ∧
     goContains (lowerStr (parseBatsman doubleSpaceRow).Name) "total" = false ∧
     goContains (lowerStr (parseBatsman doubleSpaceRow).Name) "fall of wickets" = false) ∧
    (parseBowler bowlingRow).Name ≠ "" :=
  ⟨(c1_record_names [doubleSpaceRow, bowlingRow]).1 (parseBatsman doubleSpaceRow) (by decide),
   (c1_record_names [doubleSpaceRow, bowlingRow]).2 (parseBowler bowlingRow) (by decide)⟩

/-! ### Claim C2 -/

/-- C2 counterexample: a six-cell row whose second cell is not an overs
value and carries no dismissal phrase, and whose first cell contains the
label `extras`, is not "rejected with no record at all": it falls through
to the bowling branch and `parseInningsInfo` emits a bowler record for
it. -/
theorem c2_counterexample :
    6 ≤ extrasRow.length ∧
    matchesOversPattern (goTrim (extrasRow.getD 1 defaultCell).text) = false ∧
    (battingStatuses.any fun st =>
      goContains (lowerStr (goTrim (extrasRow.getD 1 defaultCell).text)) st) = false ∧
    (skipRows.any fun sk =>
      goContains (lowerStr (goTrim (extrasRow.getD 0 defaultCell).text)) sk ||
      goContains (lowerStr (goTrim (extrasRow.getD 1 defaultCell).text)) sk) = true ∧
    (parseInningsInfo [extrasRow]).BowlerDetails ≠ [] := by decide

/-- C2 (amended): a row with at least 6 cells whose second cell neither
matches the overs pattern nor contains a dismissal phrase, and whose first
two cells' lowercased text contains a label from the skip set, is merely
not classified as batting: it produces no batting record, falls to the
bowling branch, and produces a bowler record exactly when its first cell's
trimmed text is non-empty. -/
theorem c2_skip_rows_become_bowling (innings : MatchInningsInfo) (cells : List Cell)
    (h6 : 6 ≤ cells.length)
    (hov : matchesOversPattern (goTrim (cells.getD 1 defaultCell).text) = false)
    (hdis : (battingStatuses.any fun st =>
      goContains (lowerStr (goTrim (cells.getD 1 defaultCell).text)) st) = false)
    (hskip : (skipRows.any fun sk =>
      goContains (lowerStr (goTrim (cells.getD 0 defaultCell).text)) sk ||
      goContains (lowerStr (goTrim (cells.getD 1 defaultCell).text)) sk) = true) :
    (parseInningsRow innings cells).BatsmanDetails = innings.BatsmanDetails ∧
    (parseInningsRow innings cells).BowlerDetails = innings.BowlerDetails ++
      (if ((parseBowler cells).Name == "") = true then [] else [parseBowler cells]) := by
  have hbat : isBattingRow (goTrim (cells.getD 0 defaultCell).text)
      (goTrim (cells.getD 1 defaultCell).text) cells.length = false := by
    unfold isBattingRow
    rw [if_neg (by rw [hov]; exact Bool.false_ne_true)]
    rw [if_neg (by rw [hdis]; exact Bool.false_ne_true)]
    rw [if_pos hskip]
  simp only [parseInningsRow, if_pos h6]
  rw [if_neg (by rw [hbat]; exact Bool.false_ne_true)]
  cases hn : (parseBowler cells).Name == "" with
  | true =>
    rw [if_neg (by decide)]
    simp
  | false =>
    rw [if_pos (by decide)]
    simp

/-- C2 witness: the amended behaviour evaluated on the concrete `Extras`
row starting from an empty innings. -/
theorem c2_witness :
    (parseInningsRow ⟨[], []⟩ extrasRow).BatsmanDetails =
      (⟨[], []⟩ : MatchInningsInfo).BatsmanDetails ∧
    (parseInningsRow ⟨[], []⟩ extrasRow).BowlerDetails =
      (⟨[], []⟩ : MatchInningsInfo).BowlerDetails ++
      (if ((parseBowler extrasRow).Name == "") = true then [] else [parseBowler extrasRow]) :=
  c2_skip_rows_become_bowling ⟨[], []⟩ extrasRow (by decide) (by decide) (by decide) (by decide)

/-! ### Claim C4 -/

/-- C4 counterexample: the name field does not pass through the sanitizer.
On a batting row whose name cell reads `A  B` (double space, no markup,
so its `.Text()` and `.Html()` agree), the produced record's name is the
merely-trimmed `A  B`, while `cleanHTML` of that cell's content (either
representation) collapses the run of spaces to `A B`. -/
theorem c4_counterexample :
    (parseInningsInfo [doubleSpaceRow]).BatsmanDetails.map BatsmanInfo.Name = ["A  B"] ∧
    cleanHTML (doubleSpaceRow.getD 0 defaultCell).html = "A B" ∧
    cleanHTML (doubleSpaceRow.getD 0 defaultCell).text = "A B" ∧
    ("A  B" : String) ≠ "A B" := by decide

/-- C4 (amended): every field of an extracted record except the name
passes through `cleanHTML` applied to the cell's inner markup; the name
field is instead the `TrimSpace`d plain text of cell 0.  Every produced
record arises this way from some row of at least 6 cells. -/
theorem c4_fields_sanitized (rows : List (List Cell)) :
    (∀ b ∈ (parseInningsInfo rows).BatsmanDetails, ∃ cells, cells ∈ rows ∧ 6 ≤ cells.length ∧
      b.Name = goTrim (cells.getD 0 defaultCell).text ∧
      b.Status = cleanHTML (cells.getD 1 defaultCell).html ∧
      b.Runs = cleanHTML (cells.getD 2 defaultCell).html ∧
      b.Balls = cleanHTML (cells.getD 3 defaultCell).html ∧
      b.Fours = cleanHTML (cells.getD 4 defaultCell).html ∧
      b.Sixes = cleanHTML (cells.getD 5 defaultCell).html ∧
      b.StrikeRate = (if 6 < cells.length then cleanHTML (cells.getD 6 defaultCell).html
        else "")) ∧
    (∀ w ∈ (parseInningsInfo rows).BowlerDetails, ∃ cells, cells ∈ rows ∧ 6 ≤ cells.length ∧
      w.Name = goTrim (cells.getD 0 defaultCell).text ∧
      w.Overs = cleanHTML (cells.getD 1 defaultCell).html ∧
      w.Maidens = cleanHTML (cells.getD 2 defaultCell).html ∧
      w.Runs = cleanHTML (cells.getD 3 defaultCell).html ∧
      w.Wickets = cleanHTML (cells.getD 4 defaultCell).html ∧
      w.NoBalls = cleanHTML (cells.getD 5 defaultCell).html ∧
      w.Wides = cleanHTML (cells.getD 6 defaultCell).html ∧
      w.Economy = (if 7 < cells.length then cleanHTML (cells.getD 7 defaultCell).html
        else "")) := by
  constructor
  · intro b hb
    rcases parseInnings_fold_bat rows {} b hb with h1 | ⟨cells, hmem, h6, hb2, _⟩
    · cases h1
    · subst hb2
      exact ⟨cells, hmem, h6, rfl, rfl, rfl, rfl, rfl, rfl, rfl⟩
  · intro w hw
    rcases parseInnings_fold_bowl rows {} w hw with h1 | ⟨cells, hmem, h6, hw2, _⟩
    · cases h1
    · subst hw2
      exact ⟨cells, hmem, h6, rfl, rfl, rfl, rfl, rfl, rfl, rfl, rfl⟩

/-- C4 witness: the amended field provenance evaluated on a concrete
batting row and a concrete bowling row. -/
theorem c4_witness :
    (∃ cells, cells ∈ [doubleSpaceRow, bowlingRow] ∧ 6 ≤ cells.length ∧
      (parseBatsman doubleSpaceRow).Name = goTrim (cells.getD 0 defaultCell).text ∧
      (parseBatsman doubleSpaceRow).Status = cleanHTML (cells.getD 1 defaultCell).html ∧
      (parseBatsman doubleSpaceRow).Runs = cleanHTML (cells.getD 2 defaultCell).html ∧
      (parseBatsman doubleSpaceRow).Balls = cleanHTML (cells.getD 3 defaultCell).html ∧
      (parseBatsman doubleSpaceRow).Fours = cleanHTML (cells.getD 4 defaultCell).html ∧
      (parseBatsman doubleSpaceRow).Sixes = cleanHTML (cells.getD 5 defaultCell).html ∧
      (parseBatsman doubleSpaceRow).StrikeRate =
        (if 6 < cells.length then cleanHTML (cells.getD 6 defaultCell).html else "")) ∧
    (∃ cells, cells ∈ [doubleSpaceRow, bowlingRow] ∧ 6 ≤ cells.length ∧
      (parseBowler bowlingRow).Name = goTrim (cells.getD 0 defaultCell).text ∧
      (parseBowler bowlingRow).Overs = cleanHTML (cells.getD 1 defaultCell).html ∧
      (parseBowler bowlingRow).Maidens = cleanHTML (cells.getD 2 defaultCell).html ∧
      (parseBowler bowlingRow).Runs = cleanHTML (cells.getD 3 defaultCell).html ∧
      (parseBowler bowlingRow).Wickets = cleanHTML (cells.getD 4 defaultCell).html ∧
      (parseBowler bowlingRow).NoBalls = cleanHTML (cells.getD 5 defaultCell).html ∧
      (parseBowler bowlingRow).Wides = cleanHTML (cells.getD 6 defaultCell).html ∧
      (parseBowler bowlingRow).Economy =
        (if 7 < cells.length then cleanHTML (cells.getD 7 defaultCell).html else "")) :=
  ⟨(c4_fields_sanitized [doubleSpaceRow, bowlingRow]).1 (parseBatsman doubleSpaceRow) (by decide),
   (c4_fields_sanitized [doubleSpaceRow, bowlingRow]).2 (parseBowler bowlingRow) (by decide)⟩

/-! ### Claim C3 -/

/-- C3 counterexample: admission is not equivalent to "the portion after
the first `-`, trimmed, equals `Live`".  The anchor text
`IND - Live - 2nd T20` is admitted by the code (Go `strings.Split` splits
on every dash and the check reads the token between the first and second
dash), yet the portion after the first dash trims to `Live - 2nd T20`,
not `Live`. -/
theorem c3_counterexample :
    anchorLiveEntry twoDashAnchor = some ("IND", 123) ∧
    goTrim (afterFirstDash (goTrim twoDashAnchor.text)) ≠ "Live" := by decide

/-- C3 (amended): for an anchor whose trimmed text is non-empty and not
the heading `MATCHES`, and whose link has at least three `/`-separated
parts with the third parsing as a 32-bit unsigned integer, discovery
admits the anchor if and only if splitting the trimmed text on every `-`
yields at least two parts whose second, trimmed, equals `Live` exactly
(the token between the first and second dash, not everything after the
first dash); the display name of an admitted entry is the trimmed first
part (the portion before the first dash). -/
theorem c3_admission (t href : String) (id : Nat)
    (hne : goTrim t ≠ "") (hm : goTrim t ≠ "MATCHES")
    (hpath : 3 ≤ (goSplit href '/').length)
    (hid : parseUint32 ((goSplit href '/').getD 2 "") = some id) :
    anchorLiveEntry ⟨t, some href⟩ =
      (if 2 ≤ (goSplit (goTrim t) '-').length ∧
          goTrim ((goSplit (goTrim t) '-').getD 1 "") = "Live" then
        some (goTrim ((goSplit (goTrim t) '-').getD 0 ""), id)
      else none) := by
  have hcond : (goTrim t == "" || goTrim t == "MATCHES") = false := by
    apply Bool.or_eq_false_iff.mpr
    exact ⟨beq_eq_false_iff_ne.mpr hne, beq_eq_false_iff_ne.mpr hm⟩
  simp only [anchorLiveEntry]
  rw [if_neg (by rw [hcond]; exact Bool.false_ne_true)]
  by_cases hlive : 2 ≤ (goSplit (goTrim t) '-').length ∧
      goTrim ((goSplit (goTrim t) '-').getD 1 "") = "Live"
  · rw [if_pos (by
      rw [Bool.and_eq_true]
      exact ⟨decide_eq_true hlive.1, beq_iff_eq.mpr hlive.2⟩)]
    rw [if_neg (Nat.not_lt.mpr hpath)]
    rw [hid]
    rw [if_pos hlive]
  · rw [if_neg (by
      rw [Bool.and_eq_true]
      intro hcontra
      exact hlive ⟨of_decide_eq_true hcontra.1, beq_iff_eq.mp hcontra.2⟩)]
    rw [if_neg hlive]

/-- C3 witness: the amended admission rule evaluated on a concrete live
anchor. -/
theorem c3_witness :
    anchorLiveEntry ⟨"IND vs AUS - Live", some "/live-cricket-scores/456/y"⟩ =
      (if 2 ≤ (goSplit (goTrim "IND vs AUS - Live") '-').length ∧
          goTrim ((goSplit (goTrim "IND vs AUS - Live") '-').getD 1 "") = "Live" then
        some (goTrim ((goSplit (goTrim "IND vs AUS - Live") '-').getD 0 ""), 456)
      else none) :=
  c3_admission "IND vs AUS - Live" "/live-cricket-scores/456/y" 456
    (by decide) (by decide) (by decide) (by decide)

/-! ### Claim C9 -/

/-- C9: during `GetAllLiveMatches`, an admitted live entry whose nested
`GetMatchInfo` resolve fails is silently omitted: the scan continues, the
result equals the scan without that anchor, and the function still
returns successfully. -/
theorem c9_failed_resolve_skipped (pre post : List Anchor) (a : Anchor)
    (resolver : Nat → Except String MatchInfo) (nm : String) (id : Nat) (e : String)
    (hadm : anchorLiveEntry a = some (nm, id)) (hres : resolver id = .error e) :
    GetAllLiveMatches (.ok (pre ++ a :: post)) resolver =
      GetAllLiveMatches (.ok (pre ++ post)) resolver ∧
    ∃ l, GetAllLiveMatches (.ok (pre ++ a :: post)) resolver = .ok l := by
  have hnone : processAnchor resolver a = none := by
    simp only [processAnchor, hadm, hres]
  refine ⟨?_, ⟨(pre ++ a :: post).filterMap (processAnchor resolver), rfl⟩⟩
  show Except.ok ((pre ++ a :: post).filterMap (processAnchor resolver)) =
    Except.ok ((pre ++ post).filterMap (processAnchor resolver))
  rw [List.filterMap_append, List.filterMap_append, List.filterMap_cons_none hnone]

/-- C9 witness: a homepage with one finished and one live anchor whose
resolve fails yields the same successful result as the homepage without
the live anchor. -/
theorem c9_witness :
    GetAllLiveMatches (.ok ([resultAnchor] ++ liveAnchor :: [])) demoResolver =
      GetAllLiveMatches (.ok ([resultAnchor] ++ [])) demoResolver ∧
    ∃ l, GetAllLiveMatches (.ok ([resultAnchor] ++ liveAnchor :: [])) demoResolver = .ok l :=
  c9_failed_resolve_skipped [resultAnchor] [] liveAnchor demoResolver "IND vs AUS" 456 "boom"
    (by decide) rfl

/-! ### Claim C5 -/

/-- C5: `GetMatchInfo` returns an error if and only if the summary fetch
or its JSON decode fails; when both succeed but the scorecard fetch/parse
fails, it returns a `MatchInfo` with an empty scorecard and no error. -/
theorem c5_resolver_error_behavior (matchID : Nat) (fetch : Except String String)
    (decode : String → Except String CricbuzzJSON)
    (scorecard : Except String (List MatchInningsInfo)) :
    ((∃ e, GetMatchInfo matchID fetch decode scorecard = .error e) ↔
      (∃ e, fetch = .error e) ∨ (∃ body e, fetch = .ok body ∧ decode body = .error e)) ∧
    (∀ body j e, fetch = .ok body → decode body = .ok j → scorecard = .error e →
      GetMatchInfo matchID fetch decode scorecard = .ok
        { CricbuzzMatchID := matchID,
          CricbuzzMatchAPILink := cricbuzzMatchAPI ++ toString matchID,
          MatchShortName := "", CricbuzzInfo := j, Scorecard := [], LastUpdated := 0 }) := by
  constructor
  · cases fetch with
    | error e0 =>
      simp only [GetMatchInfo]
      constructor
      · intro _
        exact Or.inl ⟨e0, rfl⟩
      · intro _
        exact ⟨_, rfl⟩
    | ok body0 =>
      cases hd : decode body0 with
      | error e0 =>
        simp only [GetMatchInfo, hd]
        constructor
        · intro _
          exact Or.inr ⟨body0, e0, rfl, hd⟩
        · intro _
          exact ⟨_, rfl⟩
      | ok j0 =>
        simp only [GetMatchInfo, hd]
        constructor
        · rintro ⟨e, he⟩
          exact Except.noConfusion he
        · rintro (⟨e, he⟩ | ⟨body, e, hb, hde⟩)
          · exact Except.noConfusion he
          · injection hb with hb2
            subst hb2
            rw [hd] at hde
            exact Except.noConfusion hde
  · intro body j e hf hdec hsc
    subst hf
    simp only [GetMatchInfo, hdec, hsc]

/-- C5 witness: a successful summary fetch and decode with a failing
scorecard fetch yields a record with an empty scorecard and no error. -/
theorem c5_witness :
    GetMatchInfo 9 (Except.ok "body") (fun _ => Except.ok (⟨"j"⟩ : CricbuzzJSON))
        (Except.error "boom") = .ok
      { CricbuzzMatchID := 9, CricbuzzMatchAPILink := cricbuzzMatchAPI ++ toString 9,
        MatchShortName := "", CricbuzzInfo := ⟨"j"⟩, Scorecard := [], LastUpdated := 0 } :=
  (c5_resolver_error_behavior 9 (Except.ok "body") (fun _ => Except.ok ⟨"j"⟩)
    (Except.error "boom")).2 "body" ⟨"j"⟩ "boom" rfl rfl rfl

/-! ### Claim C6 -/

/-- C6: `App.UpdateMatches` is atomic on the `Matches` snapshot: on any
error the snapshot is exactly as before the call, in both single-match and
multiple-matches mode; on success it is fully replaced by the value built
from the fresh fetch. -/
theorem c6_update_atomic (ms : List MatchInfo) (getInfo : Nat → Except String MatchInfo)
    (getAll : Except String (List MatchInfo)) (now : Nat) :
    (∀ e, (UpdateMatches ms getInfo getAll now).1 = some e →
      (UpdateMatches ms getInfo getAll now).2 = ms) ∧
    ((UpdateMatches ms getInfo getAll now).1 = none →
      if ms.length = 1 then
        ∃ m mi, ms = [m] ∧ getInfo m.CricbuzzMatchID = .ok mi ∧
          (UpdateMatches ms getInfo getAll now).2 =
            [{ mi with MatchShortName := m.MatchShortName, LastUpdated := now }]
      else
        ∃ fresh, getAll = .ok fresh ∧
          (UpdateMatches ms getInfo getAll now).2 =
            fresh.map (fun m => { m with LastUpdated := now })) := by
  by_cases hlen : ms.length = 1
  · obtain ⟨m, rfl⟩ := List.length_eq_one.mp hlen
    cases hres : getInfo m.CricbuzzMatchID with
    | error e0 =>
      have hu : UpdateMatches [m] getInfo getAll now = (some e0, [m]) := by
        unfold UpdateMatches
        rw [if_pos hlen, show ([m].getD 0 default) = m from rfl, hres]
      rw [hu]
      constructor
      · intro e _
        rfl
      · intro hn
        exact Option.noConfusion hn
    | ok mi =>
      have hu : UpdateMatches [m] getInfo getAll now =
          (none, [{ mi with MatchShortName := m.MatchShortName, LastUpdated := now }]) := by
        unfold UpdateMatches
        rw [if_pos hlen, show ([m].getD 0 default) = m from rfl, hres]
        rfl
      rw [hu]
      constructor
      · intro e he
        exact Option.noConfusion he
      · intro _
        rw [if_pos hlen]
        exact ⟨m, mi, rfl, hres, rfl⟩
  · cases hres : getAll with
    | error e0 =>
      have hu : UpdateMatches ms getInfo (Except.error e0) now = (some e0, ms) := by
        unfold UpdateMatches
        rw [if_neg hlen]
      rw [hu]
      constructor
      · intro e _
        rfl
      · intro hn
        exact Option.noConfusion hn
    | ok fresh =>
      have hu : UpdateMatches ms getInfo (Except.ok fresh) now =
          (none, fresh.map (fun m => { m with LastUpdated := now })) := by
        unfold UpdateMatches
        rw [if_neg hlen]
      rw [hu]
      constructor
      · intro e he
        exact Option.noConfusion he
      · intro _
        rw [if_neg hlen]
        exact ⟨fresh, rfl, rfl⟩

/-- C6 witness: a failing single-mode refresh leaves the one-element
snapshot untouched. -/
theorem c6_witness :
    (UpdateMatches [oldInfo] (fun _ => Except.error "e") (Except.error "e2") 5).2 =
      [oldInfo] :=
  (c6_update_atomic [oldInfo] (fun _ => Except.error "e") (Except.error "e2") 5).1 "e" rfl

/-! ### Claim C10 -/

/-- C10: in single-match mode a successful `UpdateMatches` returns no
error and replaces the snapshot with the freshly fetched record, except
that `MatchShortName` is carried over unchanged from the previous record
and `LastUpdated` is set to the current time. -/
theorem c10_single_mode_short_name (m : MatchInfo) (getInfo : Nat → Except String MatchInfo)
    (getAll : Except String (List MatchInfo)) (now : Nat) (mi : MatchInfo)
    (h : getInfo m.CricbuzzMatchID = .ok mi) :
    UpdateMatches [m] getInfo getAll now =
      (none, [{ mi with MatchShortName := m.MatchShortName, LastUpdated := now }]) := by
  unfold UpdateMatches
  rw [if_pos (show ([m] : List MatchInfo).length = 1 from rfl),
    show ([m].getD 0 default) = m from rfl, h]
  rfl

/-- C10 witness: the short name of the previous record survives a
successful single-mode refresh while the rest comes from the fresh
fetch. -/
theorem c10_witness :
    UpdateMatches [oldInfo] (fun _ => Except.ok freshInfo) (Except.error "x") 9 =
      (none,
        [{ freshInfo with MatchShortName := oldInfo.MatchShortName, LastUpdated := 9 }]) :=
  c10_single_mode_short_name oldInfo (fun _ => Except.ok freshInfo) (Except.error "x") 9
    freshInfo rfl

/-! ### Claim C8 -/

theorem beginTimes_ge : ∀ (as : List Nat) (last0 b : Nat), b ∈ beginTimes last0 as →
    last0 + requestInterval ≤ b := by
  intro as
  induction as with
  | nil => intro l b h; cases h
  | cons a rest ih =>
    intro l b h
    simp only [beginTimes] at h
    rcases List.mem_cons.mp h with rfl | h2
    · unfold makeRequestBegin
      exact Nat.le_max_right _ _
    · have h3 := ih (makeRequestBegin l a) b h2
      have h4 : l + requestInterval ≤ makeRequestBegin l a := by
        unfold makeRequestBegin
        exact Nat.le_max_right _ _
      omega

theorem beginTimes_chain : ∀ (as : List Nat) (last0 i : Nat),
    i + 1 < (beginTimes last0 as).length →
    (beginTimes last0 as).getD i 0 + requestInterval ≤
      (beginTimes last0 as).getD (i + 1) 0 := by
  intro as
  induction as with
  | nil => intro l i h; simp [beginTimes] at h
  | cons a rest ih =>
    intro l i h
    simp only [beginTimes] at h ⊢
    cases i with
    | zero =>
      simp only [List.getD_cons_zero, List.getD_cons_succ]
      cases rest with
      | nil => simp [beginTimes] at h
      | cons r rs =>
        simp only [beginTimes, List.getD_cons_zero]
        unfold makeRequestBegin
        exact Nat.le_max_right _ _
    | succ i =>
      simp only [List.getD_cons_succ]
      apply ih
      exact Nat.lt_of_succ_lt_succ (by simpa using h)

theorem beginTimes_span : ∀ (as : List Nat) (last0 : Nat), as ≠ [] →
    (beginTimes last0 as).getD 0 0 + (as.length - 1) * requestInterval ≤
      (beginTimes last0 as).getD (as.length - 1) 0 := by
  intro as
  induction as with
  | nil => intro l h; exact absurd rfl h
  | cons a rest ih =>
    intro l _
    simp only [beginTimes, List.length_cons]
    cases rest with
    | nil => simp
    | cons r rs =>
      have ihh := ih (makeRequestBegin l a) (by simp)
      have hhead : makeRequestBegin l a + requestInterval ≤
          (beginTimes (makeRequestBegin l a) (r :: rs)).getD 0 0 := by
        simp only [beginTimes, List.getD_cons_zero]
        unfold makeRequestBegin
        exact Nat.le_max_right _ _
      simp only [List.length_cons] at ihh ⊢
      simp only [Nat.add_sub_cancel] at ihh ⊢
      rw [List.getD_cons_succ, List.getD_cons_zero]
      have hT : requestInterval = 1 := rfl
      rw [hT] at ihh hhead ⊢
      simp only [Nat.mul_one] at ihh ⊢
      omega

/-- C8: in the discrete-clock model of the rate limiter, consecutive
`makeRequest` calls begin at least `requestInterval` apart — whatever
their arrival times, hence regardless of any request's outcome — and a
sequence of N calls spans at least (N − 1) × `requestInterval` of clock
time between its first and last begin. -/
theorem c8_rate_limiter_spacing (last0 : Nat) (arrivals : List Nat) :
    (∀ i, i + 1 < (beginTimes last0 arrivals).length →
      (beginTimes last0 arrivals).getD i 0 + requestInterval ≤
        (beginTimes last0 arrivals).getD (i + 1) 0) ∧
    (arrivals ≠ [] →
      (beginTimes last0 arrivals).getD 0 0 + (arrivals.length - 1) * requestInterval ≤
        (beginTimes last0 arrivals).getD (arrivals.length - 1) 0) :=
  ⟨fun i h => beginTimes_chain arrivals last0 i h, fun h => beginTimes_span arrivals last0 h⟩

/-- C8 witness: three back-to-back requests arriving at clock values 0, 0
and 5. -/
theorem c8_witness :
    ((beginTimes 0 [0, 0, 5]).getD 0 0 + requestInterval ≤
      (beginTimes 0 [0, 0, 5]).getD (0 + 1) 0) ∧
    ((beginTimes 0 [0, 0, 5]).getD 0 0 + (([0, 0, 5] : List Nat).length - 1) * requestInterval ≤
      (beginTimes 0 [0, 0, 5]).getD (([0, 0, 5] : List Nat).length - 1) 0) :=
  ⟨(c8_rate_limiter_spacing 0 [0, 0, 5]).1 0 (by decide),
   (c8_rate_limiter_spacing 0 [0, 0, 5]).2 (by decide)⟩
